import Mathlib

/-! Verification development for a PDF ingestion and hybrid retrieval backend.

The Python sources are shallowly embedded in Lean: the repository's own logic
(ingestion control flow, checkpoint state tracking, record construction,
upsert batching, regex token extraction, sparse token hashing) is translated
directly from the source files, while external services (PDF parser, text
splitter, embedding models, vector store, metadata store, cross-encoder) are
abstracted as environment functions that processing steps consume. -/

namespace Backend

/-! ### Python `dict` semantics over association lists

A Python `dict` preserves insertion order; assignment to an existing key
updates the value in place, assignment to a fresh key appends. -/

def dictSet {V : Type} : List (String × V) → String → V → List (String × V)
  | [], k, v => [(k, v)]
  | (k', v') :: rest, k, v =>
    if k' = k then (k, v) :: rest else (k', v') :: dictSet rest k v

def dictLookup {V : Type} : List (String × V) → String → Option V
  | [], _ => none
  | (k', v') :: rest, k => if k' = k then some v' else dictLookup rest k

def dictKeys {V : Type} (d : List (String × V)) : List String := d.map Prod.fst

/-! ### State tracker (src/ingestion/state.py)

`StateTracker.mark` executes `self.state[digest] = {"status": status, **(meta or {})}`:
the record literal starts from the `"status"` pair and then writes each `meta`
entry in order (so a `"status"` key in `meta` overrides the argument). -/

def mkRecord {V : Type} (status : V) (meta : List (String × V)) : List (String × V) :=
  meta.foldl (fun d kv => dictSet d kv.1 kv.2) [("status", status)]

def StateTracker.mark {V : Type} (state : List (String × List (String × V)))
    (digest : String) (status : V) (meta : List (String × V)) :
    List (String × List (String × V)) :=
  dictSet state digest (mkRecord status meta)

/-- `self.state.get(digest, {}).get("status")` from `IngestionPipeline.ingest`. -/
def statusOf (state : List (String × List (String × String))) (digest : String) :
    Option String :=
  match dictLookup state digest with
  | some r => dictLookup r "status"
  | none => none

/-! ### Sparse token hashing (src/ingestion/pipeline.py, `_map_sparse_tokens`)

The source hashes each term with `zlib.crc32(token.encode("utf-8"))`.  CRC-32 is
embedded as the standard bitwise algorithm (polynomial 0xEDB88320, initial and
final value 0xFFFFFFFF), and UTF-8 encoding of a code point is written out with
explicit arithmetic on `Nat`. -/

def crc32Round (c : Nat) : Nat :=
  if c % 2 = 1 then c / 2 ^^^ 0xEDB88320 else c / 2

def crc32Bits : Nat → Nat → Nat
  | 0, c => c
  | n + 1, c => crc32Bits n (crc32Round c)

def crc32Byte (c b : Nat) : Nat := crc32Bits 8 (c ^^^ b)

def crc32 (bytes : List Nat) : Nat :=
  (bytes.foldl crc32Byte 0xFFFFFFFF) ^^^ 0xFFFFFFFF

def utf8EncodeChar (ch : Char) : List Nat :=
  let n := ch.toNat
  if n < 0x80 then [n]
  else if n < 0x800 then [0xC0 + n / 64, 0x80 + n % 64]
  else if n < 0x10000 then [0xE0 + n / 4096, 0x80 + n / 64 % 64, 0x80 + n % 64]
  else [0xF0 + n / 262144, 0x80 + n / 4096 % 64, 0x80 + n / 64 % 64, 0x80 + n % 64]

def utf8Encode (s : String) : List Nat :=
  s.toList.foldr (fun c acc => utf8EncodeChar c ++ acc) []

/-- The index the pipeline stores for one sparse term: `zlib.crc32(token.encode("utf-8"))`. -/
def tokenIndex (t : String) : Nat := crc32 (utf8Encode t)

structure SparseValues (W : Type) where
  indices : List Nat
  values : List W
  deriving DecidableEq, Repr

/-- `IngestionPipeline._map_sparse_tokens`: iterate the term → weight dict in
order, collecting hashed indices and weights into parallel lists. -/
def mapSparseTokens {W : Type} (sparse : List (String × W)) : SparseValues W :=
  { indices := sparse.map (fun p => tokenIndex p.1)
    values := sparse.map (fun p => p.2) }

/-! ### Regex token extraction (src/ingestion/pipeline.py)

`extract_part_numbers` and `extract_model_numbers` run `re.findall` with the
patterns `\b[A-Z0-9]{3,5}-?[0-9A-Z]{3,6}\b` and `\b[A-Z0-9]{3,}-[A-Z0-9/]{3,}\b`
and return `sorted(set(matches))`.  The patterns use only character-class
repetitions, one optional literal, and word boundaries, so Python's
leftmost / greedy / backtracking `findall` semantics is embedded directly for
this fragment. -/

inductive RItem where
  | cls (p : Char → Bool) (lo : Nat) (hi : Option Nat)
  | optCh (c : Char)
  | wb

def isWordChar (c : Char) : Bool :=
  ('A' ≤ c && c ≤ 'Z') || ('a' ≤ c && c ≤ 'z') || ('0' ≤ c && c ≤ '9') || c = '_'

/-- `\b`: the word-ness of the characters on either side differs (outside the
string counts as non-word). -/
def atBoundary (prev next : Option Char) : Bool :=
  (match prev with | some c => isWordChar c | none => false) !=
  (match next with | some c => isWordChar c | none => false)

def countLeading (p : Char → Bool) : List Char → Nat
  | [] => 0
  | c :: cs => if p c then countLeading p cs + 1 else 0

def lastCharOf (l : List Char) (prev : Option Char) : Option Char :=
  match l.getLast? with
  | some c => some c
  | none => prev

/-- One attempt for a class repetition: consume exactly `k` characters, then
run the continuation on the remainder. -/
def clsAttempt (cont : Option Char → List Char → Option (List Char × List Char))
    (prev : Option Char) (input : List Char) (k : Nat) :
    Option (List Char × List Char) :=
  match cont (lastCharOf (input.take k) prev) (input.drop k) with
  | some (c2, r) => some (input.take k ++ c2, r)
  | none => none

/-- Greedy matching of a `{lo,·}` class repetition: try the largest count
first and backtrack downwards, never below `lo`. -/
def tryCls (lo : Nat) (cont : Option Char → List Char → Option (List Char × List Char))
    (prev : Option Char) (input : List Char) : Nat → Option (List Char × List Char)
  | 0 => if lo = 0 then clsAttempt cont prev input 0 else none
  | k + 1 =>
    if k + 1 < lo then none
    else
      match clsAttempt cont prev input (k + 1) with
      | some res => some res
      | none => tryCls lo cont prev input k

/-- Match a pattern at the start of `input` (`prev` is the character just
before the current position, for `\b`).  Returns the consumed characters and
the rest of the input. -/
def tryMatch : List RItem → Option Char → List Char → Option (List Char × List Char)
  | [], _, input => some ([], input)
  | .wb :: rest, prev, input =>
    if atBoundary prev input.head? then tryMatch rest prev input else none
  | .optCh c :: rest, prev, input =>
    match input with
    | x :: xs =>
      if x = c then
        match tryMatch rest (some x) xs with
        | some (c2, r) => some (x :: c2, r)
        | none => tryMatch rest prev input
      else tryMatch rest prev input
    | [] => tryMatch rest prev []
  | .cls p lo hi :: rest, prev, input =>
    let m := countLeading p input
    let cap := match hi with | some h => min h m | none => m
    tryCls lo (fun pr inp => tryMatch rest pr inp) prev input cap

/-- `re.findall` scanning loop: try a match at every position, left to right,
non-overlapping; after a non-empty match resume right after it. -/
def scanFrom (pat : List RItem) : Nat → Option Char → List Char → List (List Char)
  | 0, _, _ => []
  | fuel + 1, prev, input =>
    match tryMatch pat prev input with
    | some ([], _) =>
      match input with
      | [] => [[]]
      | x :: xs => [] :: scanFrom pat fuel (some x) xs
    | some (c, r) => c :: scanFrom pat fuel (lastCharOf c prev) r
    | none =>
      match input with
      | [] => []
      | x :: xs => scanFrom pat fuel (some x) xs

def findall (pat : List RItem) (text : List Char) : List (List Char) :=
  scanFrom pat (text.length + 1) none text

def isUpperDigit (c : Char) : Bool := ('A' ≤ c && c ≤ 'Z') || ('0' ≤ c && c ≤ '9')

def isUpperDigitSlash (c : Char) : Bool := isUpperDigit c || c = '/'

/-- `PART_NUMBER_RE = \b[A-Z0-9]{3,5}-?[0-9A-Z]{3,6}\b`. -/
def partNumberPat : List RItem :=
  [.wb, .cls isUpperDigit 3 (some 5), .optCh '-', .cls isUpperDigit 3 (some 6), .wb]

/-- `MODEL_RE = \b[A-Z0-9]{3,}-[A-Z0-9/]{3,}\b`. -/
def modelNumberPat : List RItem :=
  [.wb, .cls isUpperDigit 3 none, .cls (fun c => c = '-') 1 (some 1),
   .cls isUpperDigitSlash 3 none, .wb]

/-- Python's `sorted(set(l))` for strings: deduplicate, then sort by code
points (lexicographic order on the character lists). -/
def sortedSet (l : List (List Char)) : List (List Char) :=
  List.insertionSort (fun a b => a ≤ b) l.dedup

def extract_part_numbers (text : String) : List String :=
  (sortedSet (findall partNumberPat text.toList)).map List.asString

def extract_model_numbers (text : String) : List String :=
  (sortedSet (findall modelNumberPat text.toList)).map List.asString

/-! ### Upsert batching (src/ingestion/pipeline.py, lines 133-135)

`for start in range(0, len(to_upsert), batch_size): batch = to_upsert[start:start+batch_size]`. -/

def toBatches {α : Type} (B : Nat) (l : List α) : List (List α) :=
  (List.range ((l.length + B - 1) / B)).map (fun i => (l.drop (i * B)).take B)

/-! ### Ingestion pipeline model (src/ingestion/pipeline.py)

External effects are supplied by an `Env`: SHA-256 digesting (`hashlib`), PDF
parsing and image handling (`fitz` page loop), text splitting (`langchain`
splitter, invoked per page by `chunk_iterable`), the dense and sparse
embedding models, the vector store (`pinecone.upsert`), and the document
metadata store (`supabase`).  An `Option`/`Bool` result models a raised
exception from the corresponding call. -/

structure Doc where
  stem : String
  name : String
  bytes : List Nat
  pathParts : List String
  deriving DecidableEq, Repr

structure ChunkMeta where
  document_id : String
  chunk_index : Nat
  text : String
  appliance_type : String
  brand : String
  part_numbers : List String
  appliance_models : List String
  deriving DecidableEq, Repr

structure UpsertRecord (D W : Type) where
  id : String
  values : D
  sparse_values : SparseValues W
  metadata : ChunkMeta
  deriving DecidableEq, Repr

/-- One `pinecone.upsert(vectors=batch, namespace=...)` call. -/
structure UpsertCall (D W : Type) where
  vectors : List (UpsertRecord D W)
  ns : String
  deriving DecidableEq, Repr

/-- One `supabase.table("documents").upsert({...})` row. -/
structure MetaRow where
  document_id : String
  filename : String
  total_pages : Nat
  images : List String
  deriving DecidableEq, Repr

structure IngestionConfig where
  ns : String
  batch_size : Nat
  deriving DecidableEq, Repr

structure Env (D W : Type) where
  digest : List Nat → String
  parse : Doc → Option (List String)
  splitText : String → List String
  imageMeta : Doc → List String
  sparseFitOk : List String → Bool
  denseEmbed : List String → Option (List D)
  sparseEmbed : List String → List String → Option (List (List (String × W)))
  upsertOk : UpsertCall D W → Bool
  metaWriteOk : Doc → Bool

/-- The observable run state: the checkpoint map, the log of vector-store
upsert calls, the log of metadata rows written, and call counters. -/
structure RunState (D W : Type) where
  tracker : List (String × List (String × String))
  store : List (UpsertCall D W)
  metaStore : List MetaRow
  embedCalls : Nat
  upsertCalls : Nat
  deriving DecidableEq, Repr

inductive Err where
  | parseErr
  | embedErr
  | upsertErr
  | metaErr
  deriving DecidableEq, Repr

/-- Appliance type and brand from the first two path components relative to
the root; fewer than two components defaults both to "unknown". -/
def categoryOf (parts : List String) : String × String :=
  match parts with
  | a :: b :: _ => (a, b)
  | _ => ("unknown", "unknown")

/-- `chunk_iterable` (src/ingestion/chunkers.py): extend `chunks` with
`chunk_text(page)` for each page, where `chunk_text` delegates to the
external splitter. -/
def chunk_iterable (split : String → List String) (pages : List String) : List String :=
  (pages.map split).flatten

/-- The `to_upsert` list built by `_process_pdf`: enumerate
`zip(dense_vectors, sparse_vectors, chunks)` and build one record per chunk
with id `f"{doc_id}-{idx}"`. -/
def buildRecords {D W : Type} (doc_id appliance_type brand : String)
    (chunks : List String) (dense : List D) (sparse : List (List (String × W))) :
    List (UpsertRecord D W) :=
  (((dense.zip sparse).zip chunks).enum).map (fun x =>
    { id := doc_id ++ "-" ++ toString x.1
      values := x.2.1.1
      sparse_values := mapSparseTokens x.2.1.2
      metadata :=
        { document_id := doc_id
          chunk_index := x.1
          text := (x.2.2.toList.take 2000).asString
          appliance_type := appliance_type
          brand := brand
          part_numbers := extract_part_numbers x.2.2
          appliance_models := extract_model_numbers x.2.2 } })

/-- Issue the batched upsert calls in order; a raised call stops the loop. -/
def runUpserts {D W : Type} (env : Env D W) (ns : String) :
    List (List (UpsertRecord D W)) → RunState D W → RunState D W × Bool
  | [], st => (st, true)
  | b :: bs, st =>
    let call : UpsertCall D W := ⟨b, ns⟩
    if env.upsertOk call then
      runUpserts env ns bs
        { st with store := st.store ++ [call], upsertCalls := st.upsertCalls + 1 }
    else ({ st with upsertCalls := st.upsertCalls + 1 }, false)

/-- Tail of `_process_pdf`: the batched upsert loop followed by the
`supabase` document-metadata write. -/
def processUpserts {D W : Type} (cfg : IngestionConfig) (env : Env D W) (doc : Doc)
    (pages : List String) (recs : List (UpsertRecord D W)) (st : RunState D W) :
    RunState D W × Option Err :=
  match runUpserts env cfg.ns (toBatches cfg.batch_size recs) st with
  | (st3, false) => (st3, some .upsertErr)
  | (st3, true) =>
    if env.metaWriteOk doc then
      ({ st3 with metaStore :=
          st3.metaStore ++ [⟨doc.stem, doc.name, pages.length, env.imageMeta doc⟩] },
       none)
    else (st3, some .metaErr)

/-- Middle of `_process_pdf`: sparse fit, dense embed, sparse embed, then
record building and the upsert/metadata tail. -/
def processEmbeds {D W : Type} (cfg : IngestionConfig) (env : Env D W) (doc : Doc)
    (pages chunks : List String) (st : RunState D W) : RunState D W × Option Err :=
  if env.sparseFitOk chunks then
    let st1 := { st with embedCalls := st.embedCalls + 1 }
    match env.denseEmbed chunks with
    | none => (st1, some .embedErr)
    | some dvecs =>
      let st2 := { st1 with embedCalls := st1.embedCalls + 1 }
      match env.sparseEmbed chunks chunks with
      | none => (st2, some .embedErr)
      | some svecs =>
        processUpserts cfg env doc pages
          (buildRecords doc.stem (categoryOf doc.pathParts).1 (categoryOf doc.pathParts).2
            chunks dvecs svecs) st2
  else (st, some .embedErr)

/-- `IngestionPipeline._process_pdf`.  Returns the run state after this
document's side effects, and the raised exception if any.  Note the early
`return` when chunking produces no chunks. -/
def processPdf {D W : Type} (cfg : IngestionConfig) (env : Env D W) (doc : Doc)
    (st : RunState D W) : RunState D W × Option Err :=
  match env.parse doc with
  | none => (st, some .parseErr)
  | some pages =>
    let chunks := chunk_iterable env.splitText pages
    if chunks.isEmpty then (st, none)
    else processEmbeds cfg env doc pages chunks st

/-- One iteration of the `for pdf_path in self._iter_pdfs()` loop body. -/
def ingestStep {D W : Type} (cfg : IngestionConfig) (env : Env D W)
    (st : RunState D W) (doc : Doc) : RunState D W × Option Err :=
  let dg := env.digest doc.bytes
  if statusOf st.tracker dg = some "completed" then (st, none)
  else
    let st1 := { st with
      tracker := StateTracker.mark st.tracker dg "processing" [("filename", doc.name)] }
    match processPdf cfg env doc st1 with
    | (st2, some e) => (st2, some e)
    | (st2, none) =>
      ({ st2 with
          tracker := StateTracker.mark st2.tracker dg "completed" [("filename", doc.name)] },
       none)

/-- `IngestionPipeline.ingest`: process the enumerated documents in order.
There is no `try`/`except` around the loop body, so a raised exception
propagates to the caller and ends the enumeration. -/
def ingest {D W : Type} (cfg : IngestionConfig) (env : Env D W) :
    List Doc → RunState D W → RunState D W × Option Err
  | [], st => (st, none)
  | d :: ds, st =>
    match ingestStep cfg env st d with
    | (st', some e) => (st', some e)
    | (st', none) => ingest cfg env ds st'

/-! Derived per-document views used in theorem statements (all are what the
deterministic `Env` would answer for that document). -/

def pagesOf {D W : Type} (env : Env D W) (d : Doc) : List String :=
  (env.parse d).getD []

def chunksOf {D W : Type} (env : Env D W) (d : Doc) : List String :=
  chunk_iterable env.splitText (pagesOf env d)

def recordsOf {D W : Type} (env : Env D W) (d : Doc) : List (UpsertRecord D W) :=
  buildRecords d.stem (categoryOf d.pathParts).1 (categoryOf d.pathParts).2
    (chunksOf env d) ((env.denseEmbed (chunksOf env d)).getD [])
    ((env.sparseEmbed (chunksOf env d) (chunksOf env d)).getD [])

def metaRowOf {D W : Type} (env : Env D W) (d : Doc) : MetaRow :=
  ⟨d.stem, d.name, (pagesOf env d).length, env.imageMeta d⟩

def upsertCallsOf {D W : Type} (cfg : IngestionConfig) (env : Env D W) (d : Doc) :
    List (UpsertCall D W) :=
  (toBatches cfg.batch_size (recordsOf env d)).map (fun b => UpsertCall.mk b cfg.ns)

/-! ### Retrieval pipeline model (src/rag/pipeline.py)

`RetrievalPipeline.__init__` wires text embedder → `PineconeEmbeddingRetriever`
(with `top_k = top_k * 2`) → `TransformersSimilarityRanker` (with
`top_k = top_k`).  `retrieve` runs the pipeline and maps `_to_result` over
`result["ranker"]["documents"]`; no exception is caught, so a failure of the
embedder/store stage propagates to the caller.  The embedder and store are
external: `storeQuery` answers the candidate stage as a whole (`Except.error`
models a raised exception). -/

structure DocMeta where
  document_id : Option String
  source : Option String
  page_number : Option Int
  appliance_type : Option String
  summary : Option String
  part_numbers : Option (List String)
  deriving DecidableEq, Repr

/-- A haystack `Document` as `_to_result` consumes it. -/
structure Candidate (S : Type) where
  id : String
  content : String
  score : Option S
  meta : DocMeta
  deriving DecidableEq, Repr

structure RetrievalResult (S : Type) where
  document_id : String
  source : String
  page_number : Option Int
  appliance_type : Option String
  summary : Option String
  part_numbers : List String
  score : S
  text : String
  deriving DecidableEq, Repr

/-- `RetrievalPipeline._to_result` (`zero` stands for the `0.0` fallback in
`document.score or 0.0`). -/
def toResult {S : Type} (zero : S) (doc : Candidate S) : RetrievalResult S :=
  { document_id := (doc.meta.document_id).getD doc.id
    source := (doc.meta.source).getD "pinecone"
    page_number := doc.meta.page_number
    appliance_type := doc.meta.appliance_type
    summary := doc.meta.summary
    part_numbers := (doc.meta.part_numbers).getD []
    score := doc.score.getD zero
    text := doc.content }

structure RetrievalPipeline where
  top_k : Nat
  retriever_top_k : Nat
  ranker_top_k : Nat
  deriving DecidableEq, Repr

/-- `RetrievalPipeline.__init__(top_k)`: the retriever is constructed with
`top_k * 2`, the ranker with `top_k`. -/
def RetrievalPipeline.init (top_k : Nat) : RetrievalPipeline :=
  { top_k := top_k, retriever_top_k := top_k * 2, ranker_top_k := top_k }

structure RetrievalEnv (S : Type) where
  storeQuery : String → Nat → Except String (List (Candidate S))
  ce : String → String → S
  zeroScore : S

/-- Modelled from the spec: the rerank stage (the external
`TransformersSimilarityRanker`, whose code is not part of this repository)
scores each (query, candidate-text) pair with a cross-encoder model and
returns the top K by that score descending, ties broken by original candidate
order (stable sort). -/
def rankerRun {S : Type} [LinearOrder S] (ce : String → String → S) (q : String)
    (k : Nat) (cands : List (Candidate S)) : List (Candidate S) :=
  letI : DecidableRel (fun a b : Candidate S => ce q b.content ≤ ce q a.content) :=
    fun a b => inferInstanceAs (Decidable (ce q b.content ≤ ce q a.content))
  (List.insertionSort (fun a b => ce q b.content ≤ ce q a.content) cands).take k

/-- `RetrievalPipeline.retrieve`. -/
def RetrievalPipeline.retrieve {S : Type} [LinearOrder S] (env : RetrievalEnv S)
    (p : RetrievalPipeline) (q : String) : Except String (List (RetrievalResult S)) :=
  match env.storeQuery q p.retriever_top_k with
  | .error e => .error e
  | .ok docs => .ok ((rankerRun env.ce q p.ranker_top_k docs).map (toResult env.zeroScore))

/-! ### Concrete environments and inputs used to instantiate the theorems -/

def cfg0 : IngestionConfig := ⟨"appliance_manuals", 32⟩

/-- An environment in which every external call succeeds. -/
def env0 : Env Int Int :=
  { digest := fun bs => "sha-" ++ toString (bs.headD 0)
    parse := fun _ => some ["hello world"]
    splitText := fun s => if s = "" then [] else [s]
    imageMeta := fun _ => []
    sparseFitOk := fun _ => true
    denseEmbed := fun chunks => some (chunks.map (fun _ => (0 : Int)))
    sparseEmbed := fun _ chunks => some (chunks.map (fun _ => [("t", (1 : Int))]))
    upsertOk := fun _ => true
    metaWriteOk := fun _ => true }

def doc0 : Doc := ⟨"m1", "m1.pdf", [1, 2, 3], ["Fridge", "Acme", "m1.pdf"]⟩

def st0 : RunState Int Int := ⟨[], [], [], 0, 0⟩

/-- Like `env0` but parsing raises on the document with stem "bad". -/
def env1 : Env Int Int :=
  { env0 with parse := fun d => if d.stem = "bad" then none else some ["hello world"] }

def docBad : Doc := ⟨"bad", "bad.pdf", [1], ["Fridge", "Acme", "bad.pdf"]⟩

def docGood : Doc := ⟨"good", "good.pdf", [2], ["Fridge", "Acme", "good.pdf"]⟩

/-- Like `env0` but every page parses to empty text, which the splitter turns
into zero chunks. -/
def env2 : Env Int Int :=
  { env0 with parse := fun _ => some [""] }

def docEmpty : Doc := ⟨"empty", "empty.pdf", [5], ["Fridge", "Acme", "empty.pdf"]⟩

/-- Every document digests to the same value: two files with identical bytes. -/
def envDup : Env Int Int := { env0 with digest := fun _ => "dgst" }

def docA : Doc := ⟨"a", "a.pdf", [7], ["T", "B", "a.pdf"]⟩

def docB : Doc := ⟨"b", "b.pdf", [7], ["T", "B", "b.pdf"]⟩

/-- Retrieval environment whose store answers successfully. -/
def renvOk : RetrievalEnv Int :=
  { storeQuery := fun _ _ => .ok []
    ce := fun _ t => (t.length : Int)
    zeroScore := 0 }

def cand (i : String) (t : String) (s : Int) : Candidate Int :=
  ⟨i, t, some s, ⟨none, none, none, none, none, none⟩⟩

/-- Retrieval environment with three fixed candidates. -/
def renvCands : RetrievalEnv Int :=
  { renvOk with
    storeQuery := fun _ _ => .ok [cand "c1" "xy" 9, cand "c2" "abcd" 1, cand "c3" "uv" 5] }

/-- Retrieval environment whose store stage raises. -/
def renvErr : RetrievalEnv Int :=
  { renvOk with storeQuery := fun _ _ => .error "store unreachable" }

/-- Three fixed embedding records for instantiating the batching theorem. -/
def recOf (i : Nat) : UpsertRecord Int Int :=
  ⟨"doc-" ++ toString i, 0, ⟨[], []⟩, ⟨"doc", i, "t", "a", "b", [], []⟩⟩

/-! ## Theorems -/

/-! ### Association-list dictionary lemmas -/

theorem dictLookup_dictSet_self {V : Type} (d : List (String × V)) (k : String) (v : V) :
    dictLookup (dictSet d k v) k = some v := by
  induction d with
  | nil => simp [dictSet, dictLookup]
  | cons p rest ih =>
    by_cases h : p.1 = k
    · simp [dictSet, h, dictLookup]
    · simp [dictSet, h, dictLookup, ih]

theorem dictLookup_dictSet_ne {V : Type} (d : List (String × V)) (k k' : String) (v : V)
    (h : k' ≠ k) : dictLookup (dictSet d k v) k' = dictLookup d k' := by
  have hkk : ¬k = k' := fun hk => h hk.symm
  induction d with
  | nil => simp [dictSet, dictLookup, hkk]
  | cons p rest ih =>
    by_cases hp : p.1 = k
    · have hp' : ¬p.1 = k' := by rw [hp]; exact hkk
      simp [dictSet, dictLookup, hp, hp', hkk]
    · by_cases hp' : p.1 = k'
      · simp [dictSet, dictLookup, hp, hp', hkk, h]
      · simp [dictSet, dictLookup, hp, hp', ih]

theorem mem_dictKeys_dictSet {V : Type} (d : List (String × V)) (k k' : String) (v : V) :
    k' ∈ dictKeys (dictSet d k v) ↔ k' ∈ dictKeys d ∨ k' = k := by
  induction d with
  | nil => simp [dictSet, dictKeys]
  | cons p rest ih =>
    by_cases hp : p.1 = k
    · subst hp
      simp [dictSet, dictKeys]
      tauto
    · simp [dictSet, hp, dictKeys] at ih ⊢
      tauto

theorem dictLookup_foldl_dictSet_of_not_mem {V : Type} (meta : List (String × V))
    (d : List (String × V)) (k : String) (h : ∀ p ∈ meta, p.1 ≠ k) :
    dictLookup (meta.foldl (fun acc kv => dictSet acc kv.1 kv.2) d) k = dictLookup d k := by
  induction meta generalizing d with
  | nil => rfl
  | cons p rest ih =>
    rw [List.foldl_cons, ih _ (fun q hq => h q (List.mem_cons_of_mem p hq)),
      dictLookup_dictSet_ne]
    exact fun hk => h p (List.mem_cons_self p rest) hk.symm

theorem dictLookup_foldl_dictSet_of_mem {V : Type} (meta : List (String × V))
    (d : List (String × V)) (k : String) (v : V)
    (hnd : (meta.map Prod.fst).Nodup) (hmem : (k, v) ∈ meta) :
    dictLookup (meta.foldl (fun acc kv => dictSet acc kv.1 kv.2) d) k = some v := by
  induction meta generalizing d with
  | nil => cases hmem
  | cons p rest ih =>
    rw [List.map_cons] at hnd
    rcases List.mem_cons.mp hmem with heq | hrest
    · subst heq
      rw [List.foldl_cons]
      have hk : ∀ q ∈ rest, q.1 ≠ k := by
        intro q hq hqk
        have h1 : k ∉ rest.map Prod.fst := by simpa using (List.nodup_cons.mp hnd).1
        exact h1 (hqk ▸ List.mem_map_of_mem Prod.fst hq)
      rw [dictLookup_foldl_dictSet_of_not_mem rest _ k hk, dictLookup_dictSet_self]
    · exact ih _ (List.nodup_cons.mp hnd).2 hrest

theorem mem_dictKeys_foldl_dictSet {V : Type} (meta : List (String × V))
    (d : List (String × V)) (k : String) :
    k ∈ dictKeys (meta.foldl (fun acc kv => dictSet acc kv.1 kv.2) d) ↔
      k ∈ dictKeys d ∨ k ∈ meta.map Prod.fst := by
  induction meta generalizing d with
  | nil => simp
  | cons p rest ih =>
    rw [List.foldl_cons, ih, mem_dictKeys_dictSet]
    simp
    tauto

/-! ### State-tracker lemmas -/

theorem statusOf_mark_self (m : List (String × List (String × String))) (g s v : String) :
    statusOf (StateTracker.mark m g s [("filename", v)]) g = some s := by
  simp only [statusOf, StateTracker.mark, dictLookup_dictSet_self]
  unfold mkRecord
  rw [dictLookup_foldl_dictSet_of_not_mem]
  · simp [dictLookup]
  · intro p hp
    simp only [List.mem_singleton] at hp
    subst hp
    simp

theorem statusOf_mark_ne (m : List (String × List (String × String))) (g g' s : String)
    (meta : List (String × String)) (h : g' ≠ g) :
    statusOf (StateTracker.mark m g s meta) g' = statusOf m g' := by
  unfold statusOf StateTracker.mark
  rw [dictLookup_dictSet_ne _ _ _ _ h]

/-! ### Claim C10: `StateTracker.mark` frame and replacement behaviour -/

/-- C10 counterexample: the claim says the new record contains exactly the
status `s` passed to `mark`, but `{"status": status, **meta}` lets a
`"status"` key inside `meta` override the argument: marking digest "d" with
status "completed" and metadata `{"status": "failed"}` stores a record whose
status is "failed", not "completed". -/
theorem C10_counterexample :
    StateTracker.mark ([] : List (String × List (String × String))) "d" "completed"
        [("status", "failed")] = [("d", [("status", "failed")])] ∧
    dictLookup [("status", "failed")] "status" ≠ some "completed" := by
  constructor
  · decide
  · decide

/-- C10 (amended): for every digest `d`, status `s` and metadata `m` whose
keys are distinct and do not include `"status"`, `StateTracker.mark d s m`
changes only the entry for `d`; that entry is replaced wholesale by the
record built from `s` and `m` alone (keys of the previous record absent from
`m` are dropped), the record's status is `s`, it maps each key of `m` to
`m`'s value, and its keys are exactly `"status"` plus the keys of `m`. -/
theorem C10_amended {V : Type} (state : List (String × List (String × V))) (d : String)
    (s : V) (meta : List (String × V))
    (hnd : (meta.map Prod.fst).Nodup) (hst : ∀ p ∈ meta, p.1 ≠ "status") :
    (∀ d', d' ≠ d → dictLookup (StateTracker.mark state d s meta) d' = dictLookup state d') ∧
    dictLookup (StateTracker.mark state d s meta) d = some (mkRecord s meta) ∧
    dictLookup (mkRecord s meta) "status" = some s ∧
    (∀ p ∈ meta, dictLookup (mkRecord s meta) p.1 = some p.2) ∧
    (∀ k, k ∈ dictKeys (mkRecord s meta) ↔ k = "status" ∨ k ∈ meta.map Prod.fst) := by
  refine ⟨fun d' hd' => dictLookup_dictSet_ne _ _ _ _ hd',
    dictLookup_dictSet_self _ _ _, ?_, ?_, ?_⟩
  · unfold mkRecord
    rw [dictLookup_foldl_dictSet_of_not_mem _ _ _ hst]
    simp [dictLookup]
  · intro p hp
    unfold mkRecord
    exact dictLookup_foldl_dictSet_of_mem meta _ p.1 p.2 hnd (by simpa using hp)
  · intro k
    unfold mkRecord
    rw [mem_dictKeys_foldl_dictSet]
    simp [dictKeys]

theorem C10_witness :
    dictLookup (StateTracker.mark [("x", [("status", "completed")])] "d" "processing"
        [("filename", "f.pdf")]) "x" = dictLookup [("x", [("status", "completed")])] "x" ∧
    dictLookup (StateTracker.mark [("x", [("status", "completed")])] "d" "processing"
        [("filename", "f.pdf")]) "d" = some (mkRecord "processing" [("filename", "f.pdf")]) ∧
    dictLookup (mkRecord "processing" [("filename", "f.pdf")]) "status" = some "processing" := by
  have h := C10_amended [("x", [("status", "completed")])] "d" "processing"
    [("filename", "f.pdf")] (by decide) (by decide)
  exact ⟨h.1 "x" (by decide), h.2.1, h.2.2.1⟩

/-! ### Run-state invariants of the processing stages -/

theorem runUpserts_tracker {D W : Type} (env : Env D W) (ns : String)
    (bs : List (List (UpsertRecord D W))) (st : RunState D W) :
    (runUpserts env ns bs st).1.tracker = st.tracker := by
  induction bs generalizing st with
  | nil => rfl
  | cons b rest ih =>
    unfold runUpserts
    by_cases h : env.upsertOk ⟨b, ns⟩
    · simp only [h, if_true]
      rw [ih]
    · simp [h]

theorem runUpserts_spec {D W : Type} (env : Env D W) (ns : String)
    (bs : List (List (UpsertRecord D W))) (st st' : RunState D W)
    (h : runUpserts env ns bs st = (st', true)) :
    st'.tracker = st.tracker ∧
    st'.store = st.store ++ bs.map (fun b => UpsertCall.mk b ns) ∧
    st'.metaStore = st.metaStore ∧
    st'.embedCalls = st.embedCalls ∧
    st'.upsertCalls = st.upsertCalls + bs.length := by
  induction bs generalizing st with
  | nil =>
    unfold runUpserts at h
    cases h
    simp
  | cons b rest ih =>
    unfold runUpserts at h
    by_cases hok : env.upsertOk ⟨b, ns⟩
    · rw [if_pos hok] at h
      have := ih _ h
      simp only at this
      refine ⟨this.1, ?_, this.2.2.1, this.2.2.2.1, ?_⟩
      · rw [this.2.1]
        simp
      · rw [this.2.2.2.2]
        simp
        omega
    · rw [if_neg hok] at h
      cases h

theorem processUpserts_tracker {D W : Type} (cfg : IngestionConfig) (env : Env D W)
    (doc : Doc) (pages : List String) (recs : List (UpsertRecord D W)) (st : RunState D W) :
    (processUpserts cfg env doc pages recs st).1.tracker = st.tracker := by
  unfold processUpserts
  cases hr : runUpserts env cfg.ns (toBatches cfg.batch_size recs) st with
  | mk st3 ok =>
    have h3 := congrArg (fun p => p.1.tracker) hr
    dsimp only at h3
    rw [runUpserts_tracker] at h3
    cases ok with
    | false => simpa using h3.symm
    | true =>
      by_cases hm : env.metaWriteOk doc
      · simp only [hm, if_true]
        simpa using h3.symm
      · simp only [hm, Bool.false_eq_true, if_false]
        simpa using h3.symm

theorem processEmbeds_tracker {D W : Type} (cfg : IngestionConfig) (env : Env D W)
    (doc : Doc) (pages chunks : List String) (st : RunState D W) :
    (processEmbeds cfg env doc pages chunks st).1.tracker = st.tracker := by
  unfold processEmbeds
  by_cases hf : env.sparseFitOk chunks
  · rw [if_pos hf]
    dsimp only
    cases hd : env.denseEmbed chunks with
    | none => rfl
    | some dvecs =>
      dsimp only
      cases hs : env.sparseEmbed chunks chunks with
      | none => rfl
      | some svecs => exact processUpserts_tracker ..
  · rw [if_neg hf]

theorem processPdf_tracker {D W : Type} (cfg : IngestionConfig) (env : Env D W)
    (doc : Doc) (st : RunState D W) :
    (processPdf cfg env doc st).1.tracker = st.tracker := by
  unfold processPdf
  cases hp : env.parse doc with
  | none => rfl
  | some pages =>
    dsimp only
    by_cases hc : (chunk_iterable env.splitText pages).isEmpty
    · rw [if_pos hc]
    · rw [if_neg hc]
      exact processEmbeds_tracker ..

theorem processUpserts_success {D W : Type} (cfg : IngestionConfig) (env : Env D W)
    (doc : Doc) (pages : List String) (recs : List (UpsertRecord D W))
    (st st' : RunState D W) (h : processUpserts cfg env doc pages recs st = (st', none)) :
    st'.tracker = st.tracker ∧
    st'.store = st.store ++ (toBatches cfg.batch_size recs).map (fun b => UpsertCall.mk b cfg.ns) ∧
    st'.metaStore = st.metaStore ++ [⟨doc.stem, doc.name, pages.length, env.imageMeta doc⟩] := by
  unfold processUpserts at h
  cases hr : runUpserts env cfg.ns (toBatches cfg.batch_size recs) st with
  | mk st3 ok =>
    rw [hr] at h
    have hspec := runUpserts_spec env cfg.ns (toBatches cfg.batch_size recs) st st3
    cases ok with
    | false => simp at h
    | true =>
      dsimp only at h
      by_cases hm : env.metaWriteOk doc
      · rw [if_pos hm] at h
        have h3 := hspec hr
        have hst : st' = { st3 with metaStore :=
            st3.metaStore ++ [⟨doc.stem, doc.name, pages.length, env.imageMeta doc⟩] } := by
          have := congrArg Prod.fst h
          simpa using this.symm
        subst hst
        exact ⟨h3.1, h3.2.1, by rw [h3.2.2.1]⟩
      · rw [if_neg hm] at h
        simp at h

theorem processEmbeds_success {D W : Type} (cfg : IngestionConfig) (env : Env D W)
    (doc : Doc) (pages chunks : List String) (st st' : RunState D W)
    (h : processEmbeds cfg env doc pages chunks st = (st', none)) :
    ∃ dvecs svecs,
      env.denseEmbed chunks = some dvecs ∧
      env.sparseEmbed chunks chunks = some svecs ∧
      st'.tracker = st.tracker ∧
      st'.store = st.store ++
        (toBatches cfg.batch_size
          (buildRecords doc.stem (categoryOf doc.pathParts).1 (categoryOf doc.pathParts).2
            chunks dvecs svecs)).map (fun b => UpsertCall.mk b cfg.ns) ∧
      st'.metaStore = st.metaStore ++ [⟨doc.stem, doc.name, pages.length, env.imageMeta doc⟩] := by
  unfold processEmbeds at h
  by_cases hf : env.sparseFitOk chunks
  · rw [if_pos hf] at h
    dsimp only at h
    cases hd : env.denseEmbed chunks with
    | none => rw [hd] at h; simp at h
    | some dvecs =>
      rw [hd] at h
      dsimp only at h
      cases hs : env.sparseEmbed chunks chunks with
      | none => rw [hs] at h; simp at h
      | some svecs =>
        rw [hs] at h
        have hspec := processUpserts_success cfg env doc pages _ _ _ h
        exact ⟨dvecs, svecs, rfl, rfl, hspec.1, by simpa using hspec.2.1,
          by simpa using hspec.2.2⟩
  · rw [if_neg hf] at h
    simp at h

theorem processPdf_success {D W : Type} (cfg : IngestionConfig) (env : Env D W)
    (doc : Doc) (st st' : RunState D W) (h : processPdf cfg env doc st = (st', none))
    (hne : chunksOf env doc ≠ []) :
    st'.tracker = st.tracker ∧
    st'.store = st.store ++ upsertCallsOf cfg env doc ∧
    st'.metaStore = st.metaStore ++ [metaRowOf env doc] := by
  unfold processPdf at h
  cases hp : env.parse doc with
  | none => rw [hp] at h; simp at h
  | some pages =>
    rw [hp] at h
    dsimp only at h
    have hpages : pagesOf env doc = pages := by simp [pagesOf, hp]
    have hchunks : chunksOf env doc = chunk_iterable env.splitText pages := by
      rw [chunksOf, hpages]
    by_cases hc : (chunk_iterable env.splitText pages).isEmpty
    · exact absurd (by rw [hchunks]; exact List.isEmpty_iff.mp hc) hne
    · rw [if_neg hc] at h
      obtain ⟨dvecs, svecs, hd, hs, h1, h2, h3⟩ := processEmbeds_success cfg env doc pages _ _ _ h
      refine ⟨h1, ?_, ?_⟩
      · rw [h2]
        unfold upsertCallsOf recordsOf
        rw [hchunks, hd, hs]
        rfl
      · rw [h3]
        unfold metaRowOf
        rw [hpages]

/-! ### Ingestion-step lemmas -/

theorem ingestStep_skip {D W : Type} (cfg : IngestionConfig) (env : Env D W)
    (st : RunState D W) (d : Doc)
    (h : statusOf st.tracker (env.digest d.bytes) = some "completed") :
    ingestStep cfg env st d = (st, none) := by
  unfold ingestStep
  rw [if_pos h]

theorem ingestStep_error_status {D W : Type} (cfg : IngestionConfig) (env : Env D W)
    (st st₁ : RunState D W) (d : Doc) (e : Err)
    (h : ingestStep cfg env st d = (st₁, some e)) :
    statusOf st₁.tracker (env.digest d.bytes) = some "processing" := by
  unfold ingestStep at h
  by_cases hc : statusOf st.tracker (env.digest d.bytes) = some "completed"
  · rw [if_pos hc] at h
    simp at h
  · rw [if_neg hc] at h
    dsimp only at h
    cases hpr : processPdf cfg env d { st with tracker := StateTracker.mark st.tracker (env.digest d.bytes) "processing" [("filename", d.name)] } with
    | mk st2 res =>
      rw [hpr] at h
      have htr := processPdf_tracker cfg env d { st with tracker := StateTracker.mark st.tracker (env.digest d.bytes) "processing" [("filename", d.name)] }
      rw [hpr] at htr
      cases res with
      | none => simp at h
      | some e' =>
        have hst : st₁ = st2 := by
          have := congrArg Prod.fst h
          simpa using this.symm
        subst hst
        rw [htr]
        exact statusOf_mark_self st.tracker (env.digest d.bytes) "processing" d.name

theorem ingestStep_success_completed {D W : Type} (cfg : IngestionConfig) (env : Env D W)
    (st st₁ : RunState D W) (d : Doc)
    (h : ingestStep cfg env st d = (st₁, none)) :
    statusOf st₁.tracker (env.digest d.bytes) = some "completed" := by
  unfold ingestStep at h
  by_cases hc : statusOf st.tracker (env.digest d.bytes) = some "completed"
  · rw [if_pos hc] at h
    have hst : st₁ = st := by
      have := congrArg Prod.fst h
      simpa using this.symm
    subst hst
    exact hc
  · rw [if_neg hc] at h
    dsimp only at h
    cases hpr : processPdf cfg env d { st with tracker := StateTracker.mark st.tracker (env.digest d.bytes) "processing" [("filename", d.name)] } with
    | mk st2 res =>
      rw [hpr] at h
      cases res with
      | some e' => simp at h
      | none =>
        have hst : st₁ = { st2 with tracker := StateTracker.mark st2.tracker (env.digest d.bytes) "completed" [("filename", d.name)] } := by
          have := congrArg Prod.fst h
          simpa using this.symm
        subst hst
        exact statusOf_mark_self st2.tracker (env.digest d.bytes) "completed" d.name

theorem ingestStep_completed_preserved {D W : Type} (cfg : IngestionConfig) (env : Env D W)
    (st st₁ : RunState D W) (d : Doc) (res : Option Err) (g : String)
    (hg : statusOf st.tracker g = some "completed")
    (h : ingestStep cfg env st d = (st₁, res)) :
    statusOf st₁.tracker g = some "completed" := by
  by_cases hgd : g = env.digest d.bytes
  · subst hgd
    cases res with
    | none => exact ingestStep_success_completed cfg env st st₁ d h
    | some e =>
      exfalso
      unfold ingestStep at h
      rw [if_pos hg] at h
      simp at h
  · unfold ingestStep at h
    by_cases hc : statusOf st.tracker (env.digest d.bytes) = some "completed"
    · rw [if_pos hc] at h
      have hst : st₁ = st := by
        have := congrArg Prod.fst h
        simpa using this.symm
      subst hst
      exact hg
    · rw [if_neg hc] at h
      dsimp only at h
      cases hpr : processPdf cfg env d { st with tracker := StateTracker.mark st.tracker (env.digest d.bytes) "processing" [("filename", d.name)] } with
      | mk st2 res2 =>
        rw [hpr] at h
        have htr := processPdf_tracker cfg env d { st with tracker := StateTracker.mark st.tracker (env.digest d.bytes) "processing" [("filename", d.name)] }
        rw [hpr] at htr
        have hst2 : statusOf st2.tracker g = some "completed" := by
          rw [htr]
          rw [statusOf_mark_ne _ _ _ _ _ hgd]
          exact hg
        cases res2 with
        | some e' =>
          have hst : st₁ = st2 := by
            have := congrArg Prod.fst h
            simpa using this.symm
          subst hst
          exact hst2
        | none =>
          have hst : st₁ = { st2 with tracker := StateTracker.mark st2.tracker (env.digest d.bytes) "completed" [("filename", d.name)] } := by
            have := congrArg Prod.fst h
            simpa using this.symm
          subst hst
          show statusOf (StateTracker.mark st2.tracker (env.digest d.bytes) "completed" [("filename", d.name)]) g = some "completed"
          rw [statusOf_mark_ne _ _ _ _ _ hgd]
          exact hst2

theorem ingest_completed_preserved {D W : Type} (cfg : IngestionConfig) (env : Env D W)
    (docs : List Doc) (st : RunState D W) (g : String)
    (hg : statusOf st.tracker g = some "completed") :
    statusOf (ingest cfg env docs st).1.tracker g = some "completed" := by
  induction docs generalizing st with
  | nil => exact hg
  | cons d ds ih =>
    unfold ingest
    cases hstep : ingestStep cfg env st d with
    | mk st' res =>
      have h' := ingestStep_completed_preserved cfg env st st' d res g hg hstep
      cases res with
      | some e => simpa using h'
      | none =>
        dsimp only
        exact ih st' h'

theorem ingest_all_completed {D W : Type} (cfg : IngestionConfig) (env : Env D W)
    (docs : List Doc) (st : RunState D W) (h : (ingest cfg env docs st).2 = none) :
    ∀ d ∈ docs,
      statusOf (ingest cfg env docs st).1.tracker (env.digest d.bytes) = some "completed" := by
  induction docs generalizing st with
  | nil => intro d hd; cases hd
  | cons d0 ds ih =>
    intro d hd
    unfold ingest at h ⊢
    cases hstep : ingestStep cfg env st d0 with
    | mk st' res =>
      rw [hstep] at h
      cases res with
      | some e =>
        dsimp only at h
        simp at h
      | none =>
        dsimp only at h ⊢
        rcases List.mem_cons.mp hd with rfl | hds
        · exact ingest_completed_preserved cfg env ds st' _
            (ingestStep_success_completed cfg env st st' d hstep)
        · exact ih st' h d hds

theorem ingest_skip_all {D W : Type} (cfg : IngestionConfig) (env : Env D W)
    (docs : List Doc) (st : RunState D W)
    (h : ∀ d ∈ docs, statusOf st.tracker (env.digest d.bytes) = some "completed") :
    ingest cfg env docs st = (st, none) := by
  induction docs with
  | nil => rfl
  | cons d ds ih =>
    unfold ingest
    rw [ingestStep_skip cfg env st d (h d (List.mem_cons_self d ds))]
    exact ih (fun d' hd' => h d' (List.mem_cons_of_mem d hd'))

/-! ### Claim C3: idempotent second run -/

/-- C3: if a run of the Ingestion Controller over a directory terminates
without an exception, then every enumerated document's digest has checkpoint
status `completed`, and a second run over the unchanged directory starting
from that checkpoint state skips every document and returns the state
unchanged — in particular the checkpoint map, the vector-store upsert log,
the metadata rows and the embedding / upsert call counters are identical, so
the second run performs zero embedding calls and zero upsert calls. -/
theorem C3_idempotent_rerun {D W : Type} (cfg : IngestionConfig) (env : Env D W)
    (docs : List Doc) (st₀ : RunState D W) (h : (ingest cfg env docs st₀).2 = none) :
    (∀ d ∈ docs,
      statusOf (ingest cfg env docs st₀).1.tracker (env.digest d.bytes) = some "completed") ∧
    ingest cfg env docs (ingest cfg env docs st₀).1 = ((ingest cfg env docs st₀).1, none) ∧
    (ingest cfg env docs (ingest cfg env docs st₀).1).1.tracker =
      (ingest cfg env docs st₀).1.tracker ∧
    (ingest cfg env docs (ingest cfg env docs st₀).1).1.store =
      (ingest cfg env docs st₀).1.store ∧
    (ingest cfg env docs (ingest cfg env docs st₀).1).1.embedCalls =
      (ingest cfg env docs st₀).1.embedCalls ∧
    (ingest cfg env docs (ingest cfg env docs st₀).1).1.upsertCalls =
      (ingest cfg env docs st₀).1.upsertCalls := by
  have hall := ingest_all_completed cfg env docs st₀ h
  have hskip := ingest_skip_all cfg env docs (ingest cfg env docs st₀).1 hall
  exact ⟨hall, hskip, by rw [hskip], by rw [hskip], by rw [hskip], by rw [hskip]⟩

theorem C3_witness :
    (ingest cfg0 env0 [doc0] st0).2 = none ∧
    statusOf (ingest cfg0 env0 [doc0] st0).1.tracker (env0.digest doc0.bytes) =
      some "completed" ∧
    ingest cfg0 env0 [doc0] (ingest cfg0 env0 [doc0] st0).1 =
      ((ingest cfg0 env0 [doc0] st0).1, none) := by
  have h : (ingest cfg0 env0 [doc0] st0).2 = none := by decide
  have hall := C3_idempotent_rerun cfg0 env0 [doc0] st0 h
  exact ⟨h, hall.1 doc0 (List.mem_cons_self doc0 []), hall.2.1⟩

/-! ### Claim C1: failure handling in the enumeration -/

/-- C1 counterexample: with a two-document directory in which the first
document fails to parse, the run aborts with the exception: the failed
document's digest is left with status "processing" (never "failed" — no code
path writes a "failed" status), and the second document is never processed
(its digest has no checkpoint entry), contradicting the claim that the
failure is recorded as `failed` and that the controller continues with the
next document. -/
theorem C1_counterexample :
    (ingest cfg0 env1 [docBad, docGood] st0).2 = some Err.parseErr ∧
    statusOf (ingest cfg0 env1 [docBad, docGood] st0).1.tracker
      (env1.digest docBad.bytes) = some "processing" ∧
    statusOf (ingest cfg0 env1 [docBad, docGood] st0).1.tracker
      (env1.digest docBad.bytes) ≠ some "failed" ∧
    statusOf (ingest cfg0 env1 [docBad, docGood] st0).1.tracker
      (env1.digest docGood.bytes) = none := by
  refine ⟨by decide, by decide, by decide, by decide⟩

/-- C1 (amended): an exception while processing one document is never
recorded as `completed` — the document's digest keeps status "processing" —
but it is not recorded as `failed` either, and it aborts the enumeration:
`ingest` returns immediately with the exception and the remaining documents
are not processed. -/
theorem C1_amended {D W : Type} (cfg : IngestionConfig) (env : Env D W)
    (st st₁ : RunState D W) (d : Doc) (ds : List Doc) (e : Err)
    (h : ingestStep cfg env st d = (st₁, some e)) :
    ingest cfg env (d :: ds) st = (st₁, some e) ∧
    statusOf st₁.tracker (env.digest d.bytes) = some "processing" ∧
    statusOf st₁.tracker (env.digest d.bytes) ≠ some "completed" := by
  refine ⟨?_, ingestStep_error_status cfg env st st₁ d e h, ?_⟩
  · unfold ingest
    rw [h]
  · rw [ingestStep_error_status cfg env st st₁ d e h]
    simp

theorem C1_witness :
    ingest cfg0 env1 [docBad, docGood] st0 =
      ((ingestStep cfg0 env1 st0 docBad).1, some Err.parseErr) ∧
    statusOf (ingestStep cfg0 env1 st0 docBad).1.tracker (env1.digest docBad.bytes) =
      some "processing" := by
  have h : ingestStep cfg0 env1 st0 docBad =
      ((ingestStep cfg0 env1 st0 docBad).1, some Err.parseErr) := by decide
  have ha := C1_amended cfg0 env1 st0 (ingestStep cfg0 env1 st0 docBad).1 docBad
    [docGood] Err.parseErr h
  exact ⟨ha.1, ha.2.1⟩

/-! ### Claim C2: `completed` only after upsert and metadata write -/

/-- C2 counterexample: a document whose parsed pages yield no chunks takes
the early `return` in `_process_pdf`: the run succeeds and marks the digest
`completed` although no vector-store upsert and no document-metadata write
ever happened for it. -/
theorem C2_counterexample :
    (ingest cfg0 env2 [docEmpty] st0).2 = none ∧
    statusOf (ingest cfg0 env2 [docEmpty] st0).1.tracker (env2.digest docEmpty.bytes) =
      some "completed" ∧
    (ingest cfg0 env2 [docEmpty] st0).1.metaStore = [] ∧
    (ingest cfg0 env2 [docEmpty] st0).1.store = [] := by
  refine ⟨by decide, by decide, by decide, by decide⟩

/-- C2 (amended): for a document actually processed in a step (its digest not
already `completed`) whose text yields at least one chunk, the step marks the
digest `completed` exactly when it succeeds, and in that case the
vector-store log has received all of the document's batched chunk records and
the metadata store has received the document's row; when the step raises, the
digest is left at "processing", never `completed`.  (Documents yielding no
chunks are marked `completed` with neither write — see the counterexample.) -/
theorem C2_amended {D W : Type} (cfg : IngestionConfig) (env : Env D W)
    (st : RunState D W) (d : Doc)
    (hs : statusOf st.tracker (env.digest d.bytes) ≠ some "completed") :
    (∀ st', ingestStep cfg env st d = (st', none) → chunksOf env d ≠ [] →
       statusOf st'.tracker (env.digest d.bytes) = some "completed" ∧
       st'.store = st.store ++ upsertCallsOf cfg env d ∧
       st'.metaStore = st.metaStore ++ [metaRowOf env d]) ∧
    (∀ st' e, ingestStep cfg env st d = (st', some e) →
       statusOf st'.tracker (env.digest d.bytes) = some "processing") := by
  constructor
  · intro st' hstep hne
    refine ⟨ingestStep_success_completed cfg env st st' d hstep, ?_⟩
    unfold ingestStep at hstep
    rw [if_neg hs] at hstep
    dsimp only at hstep
    cases hpr : processPdf cfg env d { st with tracker := StateTracker.mark st.tracker (env.digest d.bytes) "processing" [("filename", d.name)] } with
    | mk st2 res =>
      rw [hpr] at hstep
      cases res with
      | some e => simp at hstep
      | none =>
        have hsp := processPdf_success cfg env d _ st2 hpr hne
        have hst : st' = { st2 with tracker := StateTracker.mark st2.tracker (env.digest d.bytes) "completed" [("filename", d.name)] } := by
          have := congrArg Prod.fst hstep
          simpa using this.symm
        subst hst
        exact ⟨by simpa using hsp.2.1, by simpa using hsp.2.2⟩
  · intro st' e hstep
    exact ingestStep_error_status cfg env st st' d e hstep

theorem C2_witness :
    statusOf (ingestStep cfg0 env0 st0 doc0).1.tracker (env0.digest doc0.bytes) =
      some "completed" ∧
    (ingestStep cfg0 env0 st0 doc0).1.store = st0.store ++ upsertCallsOf cfg0 env0 doc0 ∧
    (ingestStep cfg0 env0 st0 doc0).1.metaStore = st0.metaStore ++ [metaRowOf env0 doc0] := by
  exact (C2_amended cfg0 env0 st0 doc0 (by decide)).1 (ingestStep cfg0 env0 st0 doc0).1
    (by decide) (by decide)

/-! ### Claim C4: record identity -/

theorem buildRecords_ids {D W : Type} (doc_id a b : String) (chunks : List String)
    (dense : List D) (sparse : List (List (String × W))) :
    (buildRecords doc_id a b chunks dense sparse).map (fun r => r.id) =
      (List.range (buildRecords doc_id a b chunks dense sparse).length).map
        (fun i => doc_id ++ "-" ++ toString i) ∧
    (buildRecords doc_id a b chunks dense sparse).map (fun r => r.metadata.chunk_index) =
      List.range (buildRecords doc_id a b chunks dense sparse).length := by
  unfold buildRecords
  constructor
  · rw [List.map_map, List.length_map, List.enum_length, ← List.enum_map_fst, List.map_map]
    rfl
  · rw [List.map_map, List.length_map, List.enum_length, ← List.enum_map_fst]
    rfl

/-- C4 counterexample: two files with identical bytes at different paths share
one content digest, but the upserted record ids are built from the file stem,
not the digest: in the run below the only records stored carry id "a-0"
(stem "a"), while the digest-derived id would be "dgst-0"; the second file is
skipped outright, so identical bytes do not yield records under one shared
document identity. -/
theorem C4_counterexample :
    envDup.digest docA.bytes = envDup.digest docB.bytes ∧
    (ingest cfg0 envDup [docA, docB] st0).1.store.map
      (fun c => c.vectors.map (fun r => r.id)) = [["a-0"]] ∧
    "a-0" ≠ envDup.digest docA.bytes ++ "-" ++ toString 0 := by
  refine ⟨by decide, by decide, by decide⟩

/-- C4 (amended): for every document, the id of the i-th upserted embedding
record is `{stem}-{i}` where the stem is the file name without extension
(`pdf_path.stem`) — not the content digest, which serves only as the
checkpoint key — and the metadata's `chunk_index` is the zero-based chunk
position. -/
theorem C4_amended {D W : Type} (env : Env D W) (d : Doc) :
    (recordsOf env d).map (fun r => r.id) =
      (List.range (recordsOf env d).length).map (fun i => d.stem ++ "-" ++ toString i) ∧
    (recordsOf env d).map (fun r => r.metadata.chunk_index) =
      List.range (recordsOf env d).length := by
  unfold recordsOf
  exact buildRecords_ids d.stem _ _ _ _ _

/-! ### Claim C5: empty result versus store failure in retrieval -/

/-- C5: `retrieve` returns `.ok []` (an empty sequence, not an error) when the
candidate stage succeeds with no candidates, and propagates the candidate
stage's exception as `.error` — never an `.ok` value — when the vector store
is unreachable; the two outcomes are distinct constructors, so a caller can
distinguish them. -/
theorem C5_empty_vs_error {S : Type} [LinearOrder S] (env : RetrievalEnv S)
    (p : RetrievalPipeline) (q : String) :
    (env.storeQuery q p.retriever_top_k = .ok [] →
      RetrievalPipeline.retrieve env p q = .ok []) ∧
    (∀ e, env.storeQuery q p.retriever_top_k = .error e →
      RetrievalPipeline.retrieve env p q = .error e ∧
      ∀ l, RetrievalPipeline.retrieve env p q ≠ .ok l) := by
  constructor
  · intro h
    unfold RetrievalPipeline.retrieve
    rw [h]
    simp [rankerRun]
  · intro e h
    unfold RetrievalPipeline.retrieve
    rw [h]
    exact ⟨rfl, fun l hl => by cases hl⟩

theorem C5_witness :
    RetrievalPipeline.retrieve renvOk (RetrievalPipeline.init 5) "q" = .ok [] ∧
    RetrievalPipeline.retrieve renvErr (RetrievalPipeline.init 5) "q" =
      .error "store unreachable" := by
  exact ⟨(C5_empty_vs_error renvOk (RetrievalPipeline.init 5) "q").1 rfl,
    ((C5_empty_vs_error renvErr (RetrievalPipeline.init 5) "q").2 "store unreachable" rfl).1⟩

/-! ### Claim C9: sparse token hashing -/

theorem crc32Round_lt (c : Nat) (h : c < 2 ^ 32) : crc32Round c < 2 ^ 32 := by
  have h32 : (2 : Nat) ^ 32 = 4294967296 := by norm_num
  unfold crc32Round
  by_cases hc : c % 2 = 1
  · rw [if_pos hc]
    exact Nat.xor_lt_two_pow (by omega) (by rw [h32]; omega)
  · rw [if_neg hc]
    rw [h32] at h ⊢
    omega

theorem crc32Bits_lt : ∀ (n c : Nat), c < 2 ^ 32 → crc32Bits n c < 2 ^ 32
  | 0, _, h => h
  | n + 1, c, h => crc32Bits_lt n _ (crc32Round_lt c h)

theorem crc32Byte_lt (c b : Nat) (hc : c < 2 ^ 32) (hb : b < 2 ^ 32) :
    crc32Byte c b < 2 ^ 32 :=
  crc32Bits_lt 8 _ (Nat.xor_lt_two_pow hc hb)

theorem crc32_foldl_lt : ∀ (bytes : List Nat) (acc : Nat), acc < 2 ^ 32 →
    (∀ b ∈ bytes, b < 2 ^ 32) → bytes.foldl crc32Byte acc < 2 ^ 32
  | [], _, h, _ => h
  | b :: bs, acc, h, hb =>
    crc32_foldl_lt bs _ (crc32Byte_lt _ _ h (hb b (List.mem_cons_self b bs)))
      (fun x hx => hb x (List.mem_cons_of_mem b hx))

theorem utf8EncodeChar_lt (ch : Char) : ∀ b ∈ utf8EncodeChar ch, b < 2 ^ 32 := by
  intro b hb
  have h32 : (2 : Nat) ^ 32 = 4294967296 := by norm_num
  have hch : ch.toNat < 4294967296 := ch.val.toNat_lt
  rw [h32]
  by_cases h1 : ch.toNat < 0x80
  · simp [utf8EncodeChar, h1] at hb
    omega
  · by_cases h2 : ch.toNat < 0x800
    · simp [utf8EncodeChar, h1, h2] at hb
      rcases hb with h | h <;> omega
    · by_cases h3 : ch.toNat < 0x10000
      · simp [utf8EncodeChar, h1, h2, h3] at hb
        rcases hb with h | h | h <;> omega
      · simp [utf8EncodeChar, h1, h2, h3] at hb
        rcases hb with h | h | h | h <;> omega

theorem utf8Encode_lt (s : String) : ∀ b ∈ utf8Encode s, b < 2 ^ 32 := by
  unfold utf8Encode
  induction s.toList with
  | nil => intro b hb; cases hb
  | cons c cs ih =>
    intro b hb
    rw [List.foldr_cons] at hb
    rcases List.mem_append.mp hb with h | h
    · exact utf8EncodeChar_lt c b h
    · exact ih b h

theorem tokenIndex_lt (t : String) : tokenIndex t < 2 ^ 32 :=
  Nat.xor_lt_two_pow
    (crc32_foldl_lt _ _ (by norm_num) (utf8Encode_lt t)) (by norm_num)

/-- C9: `_map_sparse_tokens` is deterministic by construction (the i-th index
depends only on the i-th term, via CRC-32 of the term's UTF-8 bytes), every
produced index lies in `[0, 2^32)`, and the indices and values lists are
parallel: the i-th index is the hash of the i-th term whose weight is the
i-th value. -/
theorem C9_sparse_hashing {W : Type} (sparse : List (String × W)) :
    (mapSparseTokens sparse).indices.length = sparse.length ∧
    (mapSparseTokens sparse).values.length = sparse.length ∧
    (∀ i : Nat, (mapSparseTokens sparse).indices[i]? =
      (sparse[i]?).map (fun p => tokenIndex p.1)) ∧
    (∀ i : Nat, (mapSparseTokens sparse).values[i]? = (sparse[i]?).map (fun p => p.2)) ∧
    (∀ t : String, tokenIndex t < 2 ^ 32) := by
  refine ⟨List.length_map _ _, List.length_map _ _, ?_, ?_, fun t => tokenIndex_lt t⟩
  · intro i
    exact List.getElem?_map _ _ _
  · intro i
    exact List.getElem?_map _ _ _

/-! ### Claim C7: upsert batching -/

theorem toBatches_length {α : Type} (B : Nat) (l : List α) :
    (toBatches B l).length = (l.length + B - 1) / B := by
  simp [toBatches]

theorem toBatches_flatten_aux {α : Type} :
    ∀ (n : Nat) (l : List α) (B : Nat), 0 < B → n = (l.length + B - 1) / B →
      ((List.range n).map (fun i => (l.drop (i * B)).take B)).flatten = l := by
  intro n
  induction n with
  | zero =>
    intro l B hB hn
    have h1 : l.length + B - 1 < B := by
      by_contra hge
      push_neg at hge
      have h2 := (Nat.one_le_div_iff hB).mpr hge
      omega
    have hlen : l.length = 0 := by omega
    rw [List.length_eq_zero.mp hlen]
    rfl
  | succ n ih =>
    intro l B hB hn
    rw [List.range_succ_eq_map, List.map_cons, List.map_map, List.flatten_cons]
    have hmap : (List.range n).map ((fun i => (l.drop (i * B)).take B) ∘ Nat.succ) =
        (List.range n).map (fun i => ((l.drop B).drop (i * B)).take B) := by
      refine List.map_congr_left (fun i _ => ?_)
      show (l.drop ((i + 1) * B)).take B = ((l.drop B).drop (i * B)).take B
      rw [List.drop_drop, Nat.succ_mul, Nat.add_comm (i * B) B]
    rw [hmap]
    have hm1 : 1 ≤ l.length := by
      by_contra h0
      push_neg at h0
      have hz : l.length = 0 := by omega
      rw [hz] at hn
      rw [Nat.div_eq_of_lt (by omega)] at hn
      omega
    have harith : n = ((l.drop B).length + B - 1) / B := by
      rw [List.length_drop]
      by_cases hmB : l.length ≤ B
      · have hone : (l.length + B - 1) / B = 1 := by
          have e : l.length + B - 1 = (l.length - 1) + B := by omega
          rw [e, Nat.add_div_right _ hB, Nat.div_eq_of_lt (by omega)]
        have hzero : l.length - B = 0 := by omega
        rw [hzero]
        rw [Nat.div_eq_of_lt (by omega)]
        omega
      · push_neg at hmB
        have e1 : l.length + B - 1 = (l.length - 1) + B := by omega
        have e2 : l.length - B + B - 1 = (l.length - B - 1) + B := by omega
        rw [e2, Nat.add_div_right _ hB]
        rw [e1, Nat.add_div_right _ hB] at hn
        have e3 : l.length - 1 = (l.length - 1 - B) + B := by omega
        rw [e3, Nat.add_div_right _ hB] at hn
        have e4 : l.length - B - 1 = l.length - 1 - B := by omega
        rw [e4]
        omega
    rw [ih (l.drop B) B hB harith]
    simp [List.take_append_drop]

theorem toBatches_flatten {α : Type} (B : Nat) (l : List α) (hB : 0 < B) :
    (toBatches B l).flatten = l :=
  toBatches_flatten_aux _ l B hB rfl

/-- C7: for batch size B > 0, `toBatches` (the slicing loop
`range(0, len(to_upsert), batch_size)`) partitions the record list into
exactly `⌈N/B⌉ = (N + B - 1) / B` contiguous batches whose concatenation is
the original list in order (the two multiplication bounds pin this count as
the ceiling of N/B), and a successful run of the upsert loop issues exactly
one vector-store call per batch, each scoped to the configured namespace, in
batch order. -/
theorem C7_batching {D W : Type} (B : Nat) (l : List (UpsertRecord D W)) (hB : 0 < B)
    (env : Env D W) (ns : String) (st st' : RunState D W) :
    (toBatches B l).length = (l.length + B - 1) / B ∧
    l.length ≤ (toBatches B l).length * B ∧
    (toBatches B l).length * B < l.length + B ∧
    (toBatches B l).flatten = l ∧
    (runUpserts env ns (toBatches B l) st = (st', true) →
      st'.store = st.store ++ (toBatches B l).map (fun b => UpsertCall.mk b ns) ∧
      st'.upsertCalls = st.upsertCalls + (toBatches B l).length) := by
  refine ⟨toBatches_length B l, ?_, ?_, toBatches_flatten B l hB, ?_⟩
  · rw [toBatches_length]
    cases hN : l.length with
    | zero => exact Nat.zero_le _
    | succ M =>
      have e : M + 1 + B - 1 = M + B := by omega
      rw [e, Nat.add_div_right _ hB]
      have hlt : M < (M / B + 1) * B := by
        calc M = B * (M / B) + M % B := (Nat.div_add_mod M B).symm
          _ < B * (M / B) + B := Nat.add_lt_add_left (Nat.mod_lt M hB) _
          _ = (M / B + 1) * B := by ring
      omega
  · rw [toBatches_length]
    cases hN : l.length with
    | zero =>
      rw [Nat.div_eq_of_lt (by omega)]
      omega
    | succ M =>
      have e : M + 1 + B - 1 = M + B := by omega
      rw [e, Nat.add_div_right _ hB]
      have hle : M / B * B ≤ M := Nat.div_mul_le_self M B
      have e2 : (M / B + 1) * B = M / B * B + B := by ring
      omega
  · intro h
    have hs := runUpserts_spec env ns (toBatches B l) st st' h
    exact ⟨hs.2.1, hs.2.2.2.2⟩

theorem C7_witness :
    (toBatches 2 [recOf 0, recOf 1, recOf 2]).length = 2 ∧
    (toBatches 2 [recOf 0, recOf 1, recOf 2]).flatten = [recOf 0, recOf 1, recOf 2] ∧
    (runUpserts env0 "appliance_manuals" (toBatches 2 [recOf 0, recOf 1, recOf 2]) st0).1.store =
      st0.store ++ (toBatches 2 [recOf 0, recOf 1, recOf 2]).map
        (fun b => UpsertCall.mk b "appliance_manuals") := by
  have hc := C7_batching 2 [recOf 0, recOf 1, recOf 2] (by decide) env0 "appliance_manuals"
    st0 (runUpserts env0 "appliance_manuals" (toBatches 2 [recOf 0, recOf 1, recOf 2]) st0).1
  refine ⟨hc.1, hc.2.2.2.1, (hc.2.2.2.2 (by decide)).1⟩

/-! ### Claim C6: part- and model-number extraction -/

theorem toList_asString (l : List Char) : l.asString.toList = l := rfl

theorem asString_inj : Function.Injective List.asString := by
  intro a b h
  have h2 := congrArg String.toList h
  exact h2

theorem map_asString_toList (L : List (List Char)) :
    (L.map List.asString).map String.toList = L := by
  rw [List.map_map]
  exact (List.map_congr_left (fun a _ => rfl)).trans (List.map_id L)

theorem sortedSet_sorted (l : List (List Char)) :
    List.Sorted (fun a b => a ≤ b) (sortedSet l) :=
  List.sorted_insertionSort _ _

theorem sortedSet_nodup (l : List (List Char)) : (sortedSet l).Nodup :=
  (List.perm_insertionSort _ _).nodup_iff.mpr (List.nodup_dedup l)

theorem sortedSet_mem (l : List (List Char)) (a : List Char) :
    a ∈ sortedSet l ↔ a ∈ l := by
  unfold sortedSet
  rw [List.mem_insertionSort, List.mem_dedup]

theorem extractGen_sorted (pat : List RItem) (text : String) :
    List.Sorted (fun a b => a ≤ b)
      (((sortedSet (findall pat text.toList)).map List.asString).map String.toList) := by
  rw [map_asString_toList]
  exact sortedSet_sorted _

theorem extractGen_nodup (pat : List RItem) (text : String) :
    ((sortedSet (findall pat text.toList)).map List.asString).Nodup :=
  (sortedSet_nodup _).map asString_inj

theorem extractGen_mem (pat : List RItem) (text : String) (s : String) :
    s ∈ (sortedSet (findall pat text.toList)).map List.asString ↔
      s.toList ∈ findall pat text.toList := by
  rw [List.mem_map]
  constructor
  · rintro ⟨c, hc, rfl⟩
    rw [toList_asString]
    exact (sortedSet_mem _ _).mp hc
  · intro h
    exact ⟨s.toList, (sortedSet_mem _ _).mpr h, rfl⟩

/-- C6 counterexample: on the spec's own acceptance-test text the part-number
extractor returns `["60X10074", "ABC-123"]` — it cannot return
"WR-60X10074", because `\b[A-Z0-9]{3,5}-?[0-9A-Z]{3,6}\b` requires 3 to 5
characters before the optional hyphen and "WR" has only two, so the scan
matches the digit run "60X10074" instead.  The model-number extractor does
return "ABC-123/DEF". -/
theorem C6_counterexample :
    extract_part_numbers "Part WR-60X10074 Model ABC-123/DEF" = ["60X10074", "ABC-123"] ∧
    "WR-60X10074" ∉ extract_part_numbers "Part WR-60X10074 Model ABC-123/DEF" ∧
    extract_model_numbers "Part WR-60X10074 Model ABC-123/DEF" = ["ABC-123/DEF"] := by
  refine ⟨by decide, by decide, by decide⟩

/-- C6 (amended): for every input text both extractors return a deduplicated
list that is sorted (in code-point order, witnessed on the underlying
character lists) and whose members are exactly the regex matches found by the
scan; on the acceptance-test text the part-number extractor's result contains
"60X10074" (not "WR-60X10074", which the part-number pattern cannot match)
and the model-number extractor's result contains "ABC-123/DEF". -/
theorem C6_amended :
    (∀ text : String,
      List.Sorted (fun a b => a ≤ b) ((extract_part_numbers text).map String.toList) ∧
      (extract_part_numbers text).Nodup ∧
      (∀ s : String,
        s ∈ extract_part_numbers text ↔ s.toList ∈ findall partNumberPat text.toList) ∧
      List.Sorted (fun a b => a ≤ b) ((extract_model_numbers text).map String.toList) ∧
      (extract_model_numbers text).Nodup ∧
      (∀ s : String,
        s ∈ extract_model_numbers text ↔ s.toList ∈ findall modelNumberPat text.toList)) ∧
    "60X10074" ∈ extract_part_numbers "Part WR-60X10074 Model ABC-123/DEF" ∧
    "ABC-123/DEF" ∈ extract_model_numbers "Part WR-60X10074 Model ABC-123/DEF" := by
  refine ⟨fun text => ⟨extractGen_sorted partNumberPat text, extractGen_nodup partNumberPat text,
    fun s => extractGen_mem partNumberPat text s, extractGen_sorted modelNumberPat text,
    extractGen_nodup modelNumberPat text, fun s => extractGen_mem modelNumberPat text s⟩,
    by decide, by decide⟩

/-! ### Claim C8: candidate over-fetch and rerank ordering -/

theorem filter_orderedInsert {α : Type} (r : α → α → Prop) [DecidableRel r] (p : α → Bool)
    (hp : ∀ x y, p x = true → ¬r x y → p y = false) (a : α) (l : List α) :
    (List.orderedInsert r a l).filter p =
      if p a then a :: l.filter p else l.filter p := by
  induction l with
  | nil => by_cases hpa : p a <;> simp [List.orderedInsert, hpa]
  | cons b t ih =>
    by_cases hr : r a b
    · rw [List.orderedInsert, if_pos hr]
      by_cases hpa : p a <;> simp [List.filter_cons, hpa]
    · rw [List.orderedInsert, if_neg hr]
      by_cases hpa : p a
      · have hpb : p b = false := hp a b hpa hr
        simp [List.filter_cons, hpb, ih, hpa]
      · simp [List.filter_cons, ih, hpa]

theorem filter_insertionSort {α : Type} (r : α → α → Prop) [DecidableRel r] (p : α → Bool)
    (hp : ∀ x y, p x = true → ¬r x y → p y = false) (l : List α) :
    (List.insertionSort r l).filter p = l.filter p := by
  induction l with
  | nil => rfl
  | cons a t ih =>
    rw [show List.insertionSort r (a :: t) = List.orderedInsert r a (List.insertionSort r t)
      from rfl]
    rw [filter_orderedInsert r p hp a _]
    by_cases hpa : p a <;> simp [List.filter_cons, hpa, ih]

/-- C8: a pipeline built with final result count K requests `top_k * 2 = 2K`
candidates from the vector store; on a successful candidate stage the
returned sequence is the image under `_to_result` of the rerank stage's
output, which is the top K of the candidates under the cross-encoder score of
(query, candidate-text) pairs: it has length `min K N`, is sorted by that
score descending, breaks ties by original candidate order (for each score
value, the selected candidates with that score form a prefix of the original
candidates with that score, in order), and splits the candidate multiset into
the kept part and a rest that scores no higher.  The ordering depends only on
the candidate texts — the dense similarity `score` field of a candidate is
never consulted. -/
theorem C8_rerank {S : Type} [LinearOrder S] (env : RetrievalEnv S) (K : Nat) (q : String)
    (cands : List (Candidate S))
    (h : env.storeQuery q (RetrievalPipeline.init K).retriever_top_k = .ok cands) :
    (RetrievalPipeline.init K).retriever_top_k = 2 * K ∧
    RetrievalPipeline.retrieve env (RetrievalPipeline.init K) q =
      .ok ((rankerRun env.ce q K cands).map (toResult env.zeroScore)) ∧
    (rankerRun env.ce q K cands).length = min K cands.length ∧
    List.Sorted (fun a b => env.ce q b.content ≤ env.ce q a.content)
      (rankerRun env.ce q K cands) ∧
    (∀ s : S, (rankerRun env.ce q K cands).filter (fun c => env.ce q c.content == s) <+:
      cands.filter (fun c => env.ce q c.content == s)) ∧
    (∃ rest, ((rankerRun env.ce q K cands) ++ rest).Perm cands ∧
      ∀ a ∈ rankerRun env.ce q K cands, ∀ b ∈ rest,
        env.ce q b.content ≤ env.ce q a.content) ∧
    (∀ c₁ c₂ : Candidate S, c₁.content = c₂.content →
      env.ce q c₁.content = env.ce q c₂.content) := by
  haveI htr : IsTrans (Candidate S)
      (fun a b => env.ce q b.content ≤ env.ce q a.content) :=
    ⟨fun _ _ _ hab hbc => le_trans hbc hab⟩
  haveI hto : IsTotal (Candidate S)
      (fun a b => env.ce q b.content ≤ env.ce q a.content) :=
    ⟨fun a b => le_total _ _⟩
  have hsorted := List.sorted_insertionSort
    (fun a b : Candidate S => env.ce q b.content ≤ env.ce q a.content) cands
  refine ⟨by simp [RetrievalPipeline.init, Nat.mul_comm], ?_, ?_, ?_, ?_, ?_, ?_⟩
  · unfold RetrievalPipeline.retrieve
    rw [h]
    rfl
  · unfold rankerRun
    rw [List.length_take, List.length_insertionSort]
  · unfold rankerRun
    exact hsorted.sublist (List.take_sublist _ _)
  · intro s
    unfold rankerRun
    have hstable := filter_insertionSort
      (fun a b : Candidate S => env.ce q b.content ≤ env.ce q a.content)
      (fun c => env.ce q c.content == s)
      (fun x y hx hnr => by
        rw [beq_iff_eq] at hx
        rw [beq_eq_false_iff_ne]
        intro hy
        exact hnr (le_of_eq (hy.trans hx.symm))) cands
    rw [← hstable]
    conv_rhs => rw [← List.take_append_drop K (List.insertionSort
      (fun a b : Candidate S => env.ce q b.content ≤ env.ce q a.content) cands)]
    rw [List.filter_append]
    exact List.prefix_append _ _
  · refine ⟨(List.insertionSort
      (fun a b : Candidate S => env.ce q b.content ≤ env.ce q a.content) cands).drop K,
      ?_, ?_⟩
    · unfold rankerRun
      rw [List.take_append_drop]
      exact List.perm_insertionSort _ _
    · unfold rankerRun
      have hsplit := hsorted
      conv at hsplit => rw [← List.take_append_drop K (List.insertionSort
        (fun a b : Candidate S => env.ce q b.content ≤ env.ce q a.content) cands)]
      exact (List.pairwise_append.mp hsplit).2.2
  · intro c₁ c₂ hc
    rw [hc]

theorem C8_witness :
    (RetrievalPipeline.init 2).retriever_top_k = 2 * 2 ∧
    RetrievalPipeline.retrieve renvCands (RetrievalPipeline.init 2) "q" =
      .ok ((rankerRun renvCands.ce "q" 2
        [cand "c1" "xy" 9, cand "c2" "abcd" 1, cand "c3" "uv" 5]).map
          (toResult renvCands.zeroScore)) ∧
    (rankerRun renvCands.ce "q" 2
      [cand "c1" "xy" 9, cand "c2" "abcd" 1, cand "c3" "uv" 5]).length = min 2 3 := by
  have hc := C8_rerank renvCands 2 "q"
    [cand "c1" "xy" 9, cand "c2" "abcd" 1, cand "c3" "uv" 5] rfl
  exact ⟨hc.1, hc.2.1, hc.2.2.1⟩

end Backend
